import Mathlib

/-!
Verification of the cmssy-cli resource model and merge/sync engine.

This file embeds, as executable Lean definitions, the core algorithms of the
repository: the schema-default/preview-data merge (`mergeDefaultsWithPreview`
from `src/commands/dev.ts` and its reference copy in
`src/dev-ui-react/__tests__/previewData.test.ts`), the editing client's
debounced save step (`App.tsx`), the resource scanner
(`src/utils/scanner.ts`), the metadata cache (`blocks-meta-cache.ts`), and
the published-version HTTP handler (`dev.ts`), and proves the specified
properties about them.
-/

/-- JavaScript/JSON values as manipulated by the merge engine.  A JS object
is modelled as an association list preserving insertion order; a key that is
absent from the list models a JS `undefined` lookup, while `JVal.null`
models an explicit `null` value. -/
inductive JVal where
  | null
  | str (s : String)
  | num (n : Int)
  | bool (b : Bool)
  | arr (xs : List JVal)
  | obj (fields : List (String × JVal))

/-- A JS object: ordered association list of fields. -/
abbrev JObj := List (String × JVal)

/-- Key lookup in an object (first occurrence); `none` models `undefined`. -/
def lookupKey {α : Type} : List (String × α) → String → Option α
  | [], _ => none
  | (k', v) :: rest, k => if k' = k then some v else lookupKey rest k

/-- JS property assignment `o[k] = v`: replaces the value at an existing key
in place (keeping its position), or appends the key at the end. -/
def setKey {α : Type} : List (String × α) → String → α → List (String × α)
  | [], k, v => [(k, v)]
  | (k', v') :: rest, k, v =>
      if k' = k then (k, v) :: rest else (k', v') :: setKey rest k v

/-- The JS spread `{ ...item }` applied to an arbitrary value, as used on each
repeater item inside `mergeDefaultsWithPreview`: an object spreads to its own
fields; an array spreads to index-keyed entries; a string spreads to
index-keyed single-character strings; `null`, numbers and booleans spread to
the empty object. -/
def spreadVal : JVal → JObj
  | .obj fs => fs
  | .arr xs => (xs.enum).map (fun p => (toString p.1, p.2))
  | .str s => (s.toList.enum).map (fun p => (toString p.1, JVal.str (String.singleton p.2)))
  | .null => []
  | .num _ => []
  | .bool _ => []

/-- A field definition, restricted to the members `mergeDefaultsWithPreview`
inspects: `type`, `defaultValue` (absent = JS `undefined`), and for repeaters
the nested item schema `schema` (absent = no/falsy `schema` member). -/
inductive FieldConfig where
  | mk (type : String) (defaultValue : Option JVal) (schema : Option (List (String × FieldConfig)))

/-- The `type` member of a field definition. -/
def FieldConfig.type : FieldConfig → String
  | .mk t _ _ => t

/-- The `defaultValue` member of a field definition. -/
def FieldConfig.defaultValue : FieldConfig → Option JVal
  | .mk _ d _ => d

/-- The nested `schema` member of a repeater field definition. -/
def FieldConfig.schema : FieldConfig → Option (List (String × FieldConfig))
  | .mk _ _ s => s

/-- A schema: ordered mapping from field key to field definition, iterated by
`Object.entries` in insertion order. -/
abbrev Schema := List (String × FieldConfig)

/-- One iteration of the nested-default fill inside the repeater branch of
`mergeDefaultsWithPreview`: a nested field key that is strictly `undefined`
(not `null`) in the item is filled with the nested field's `defaultValue`
when that default is present. -/
def itemFillStep (acc : JObj) (p : String × FieldConfig) : JObj :=
  match lookupKey acc p.1, (p.2).defaultValue with
  | none, some d => setKey acc p.1 d
  | _, _ => acc

/-- The repeater branch's per-item merge: `{...item}` followed by the
nested-default fill over the nested schema entries in order. -/
def mergeItemObj (ns : Schema) (item : JVal) : JObj :=
  ns.foldl itemFillStep (spreadVal item)

/-- One repeater item after the nested-default fill (always an object). -/
def mergeItem (ns : Schema) (item : JVal) : JVal :=
  .obj (mergeItemObj ns item)

/-- The first statement block of `mergeDefaultsWithPreview`'s loop body: if
the current value at `key` is `undefined` or `null`, substitute the field's
`defaultValue` when present, else an empty array for repeaters, else leave
the object unchanged. -/
def mergeStep1 (m : JObj) (key : String) (f : FieldConfig) : JObj :=
  match lookupKey m key with
  | none =>
      match f.defaultValue with
      | some d => setKey m key d
      | none => if f.type = "repeater" then setKey m key (.arr []) else m
  | some .null =>
      match f.defaultValue with
      | some d => setKey m key d
      | none => if f.type = "repeater" then setKey m key (.arr []) else m
  | some _ => m

/-- The second statement block of the loop body: if the field is a repeater
with a (truthy) nested schema and the current value is an array, map the
nested-default fill over its items. -/
def mergeStep2 (m1 : JObj) (key : String) (f : FieldConfig) : JObj :=
  if f.type = "repeater" then
    match f.schema with
    | some ns =>
        match lookupKey m1 key with
        | some (.arr items) => setKey m1 key (.arr (items.map (mergeItem ns)))
        | _ => m1
    | none => m1
  else m1

/-- The full loop body of `mergeDefaultsWithPreview` for one schema entry:
the two statement blocks in sequence. -/
def mergeField (m : JObj) (key : String) (f : FieldConfig) : JObj :=
  mergeStep2 (mergeStep1 m key f) key f

/-- `mergeDefaultsWithPreview` from `src/commands/dev.ts`: start from a
shallow copy of the preview data and process every schema entry in order. -/
def mergeDefaultsWithPreview (schema : Schema) (previewData : JObj) : JObj :=
  schema.foldl (fun m p => mergeField m p.1 p.2) previewData

/-- JS `Object.keys`. -/
def objKeys {α : Type} (m : List (String × α)) : List String :=
  m.map Prod.fst

/-- The characterization of what the merge produces at a schema key whose
preview value is a non-null value `v`: `v` itself, except that a repeater
field with a (truthy) nested schema maps the nested-default fill over the
items when `v` is an array. -/
def repeaterFill (f : FieldConfig) (v : JVal) : JVal :=
  if f.type = "repeater" then
    match f.schema, v with
    | some ns, .arr items => .arr (items.map (mergeItem ns))
    | _, _ => v
  else v

/-- The loop body of the test suite's reference copy of
`mergeDefaultsWithPreview` (from
`src/dev-ui-react/__tests__/previewData.test.ts`).  Its first two steps are
textually identical to the dev server's `mergeField`; it then additionally
coerces a string value at a media-typed field into `{url, alt: ""}`. -/
def mergeFieldTest (m : JObj) (key : String) (f : FieldConfig) : JObj :=
  let m2 : JObj := mergeField m key f
  if f.type = "media" then
    match lookupKey m2 key with
    | some (.str s) => setKey m2 key (.obj [("url", .str s), ("alt", .str "")])
    | _ => m2
  else m2

/-- The test suite's reference simulation of `mergeDefaultsWithPreview`. -/
def mergeDefaultsWithPreviewTest (schema : Schema) (previewData : JObj) : JObj :=
  schema.foldl (fun m p => mergeFieldTest m p.1 p.2) previewData

/-- `mergeForSave` from the test suite, i.e. the save-payload computation
`{...configDataRef, ...previewData}` performed in `App.tsx`'s debounced save
effect: a shallow merge where the second object wins key-for-key and keys
unique to it are appended. -/
def mergeForSave (configDataRef previewData : JObj) : JObj :=
  previewData.foldl (fun acc p => setKey acc p.1 p.2) configDataRef

/-- The state read by `App.tsx`'s debounced-save effect: the loading flag of
the config fetch, the dirty flag, the selected resource (if any), the
baseline snapshot `configDataRef.current`, and the working edit state
`previewData`. -/
structure SaveEffectState where
  configLoading : Bool
  isDirty : Bool
  selectedBlock : Option String
  configDataRef : JObj
  previewData : JObj

/-- The debounced-save step of `App.tsx`: returns `none` when the effect
bails out without issuing a write (loading, not dirty, no selection, or
empty baseline), and otherwise `some (name, payload)` describing the POST
`/api/preview/{name}` request with body `{...configDataRef, ...previewData}`. -/
def debouncedSave (s : SaveEffectState) : Option (String × JObj) :=
  if s.configLoading then none
  else if ¬ s.isDirty then none
  else
    match s.selectedBlock with
    | none => none
    | some name =>
        if (objKeys s.configDataRef).length = 0 then none
        else some (name, mergeForSave s.configDataRef s.previewData)

/-- JS string truthiness for optional string members (`undefined`, `null`
and `""` are falsy). -/
def strTruthy : Option String → Bool
  | some s => s ≠ ""
  | none => false

/-- JS `a || b` on optional string members. -/
def jsOrStr (a b : Option String) : Option String :=
  if strTruthy a then a else b

/-- The members of a resource's `package.json` that the scanner reads:
`name`, `version`, `description`, and the presence of a (truthy) legacy
`cmssy` key. -/
structure PackageJson where
  name : Option String
  version : Option String
  description : Option String
  cmssy : Bool

/-- The members of a resolved `config.ts` object (`ResourceConfig`) that the
scanner and the metadata cache read: `name`, `description`, `category`,
`tags`, and whether a (truthy) `schema` is present. -/
structure BlockCfg where
  name : Option String
  description : Option String
  category : Option String
  tags : Option (List String)
  hasSchema : Bool

/-- One subdirectory of a resource root together with the results of the
external collaborators the scanner invokes on it: `config` is the outcome of
`loadBlockConfig` (`none` = no `config.ts`), `pkg` the outcome of
`getPackageJson`, `schemaValid`/`schemaErrors` the outcome of
`validateSchema` (consulted only when a schema is present), and
`previewData` the on-disk `preview.json` content (`[]` when the file is
absent). -/
structure ScanItem where
  name : String
  config : Option BlockCfg
  pkg : Option PackageJson
  schemaValid : Bool
  schemaErrors : List String
  previewData : JObj

/-- The scanner's `ScanOptions` (the `cwd` and `names` options, which only
select which directories are listed, are part of the elided filesystem
layer). -/
structure ScanOptions where
  strict : Bool
  loadConfig : Bool
  validateSchema : Bool
  loadPreview : Bool
  requirePackageJson : Bool

/-- A scanned resource, as assembled at the end of `scanDirectory`'s loop
body (the filesystem `path` member is elided). -/
structure ScannedResource where
  type : String
  name : String
  displayName : String
  description : Option String
  category : Option String
  blockConfig : Option BlockCfg
  packageJson : Option PackageJson
  previewData : Option JObj

/-- `charAt(0).toUpperCase() + slice(1)` on one word. -/
def capitalizeWord (w : String) : String :=
  match w.toList with
  | [] => ""
  | c :: rest => String.mk (c.toUpper :: rest)

/-- The scanner's default display name: directory name split on `-`,
each word capitalized, joined (PascalCase). -/
def pascalName (s : String) : String :=
  String.join ((s.splitOn "-").map capitalizeWord)

/-- The legacy-format message thrown (strict) or warned (lenient) when a
resource has no `config.ts` but its `package.json` carries a `cmssy` key. -/
def legacyMessage (rtype name : String) : String :=
  (if rtype = "block" then "Block" else "Template") ++
    " \x22" ++ name ++ "\x22 uses legacy package.json format. Run: cmssy migrate " ++ name

/-- The message thrown in strict mode when `package.json` is required but
lacks `name` or `version`. -/
def pkgMessage (rtype name : String) : String :=
  (if rtype = "block" then "Block" else "Template") ++
    " \x22" ++ name ++ "\x22 must have package.json with name and version"

/-- Tail of `scanDirectory`'s loop body, after the missing-config and
schema-validation policy checks: the `package.json` requirement check and
the construction of the `ScannedResource` pushed onto the result list. -/
def finishItem (o : ScanOptions) (rtype : String) (it : ScanItem)
    (blockConfig : Option BlockCfg) (ws : List String) :
    Except String (Option ScannedResource × List String) :=
  let pkgBad : Bool :=
    match it.pkg with
    | none => true
    | some p => !(strTruthy p.name) || !(strTruthy p.version)
  if o.requirePackageJson && pkgBad && o.strict then
    .error (pkgMessage rtype it.name)
  else
    let base := pascalName it.name
    let res : ScannedResource :=
      { type := rtype
        name := it.name
        displayName :=
          match blockConfig with
          | some cfg => (jsOrStr cfg.name (some base)).getD base
          | none => base
        description :=
          match blockConfig with
          | some cfg => jsOrStr cfg.description (it.pkg.bind (·.description))
          | none => none
        category := blockConfig.bind (·.category)
        blockConfig := blockConfig
        packageJson := it.pkg
        previewData :=
          if o.loadPreview && !it.previewData.isEmpty then some it.previewData
          else none }
    .ok (some res, ws)

/-- The legacy-format test `pkg && pkg.cmssy` in `scanDirectory`. -/
def hasLegacyCmssy (it : ScanItem) : Bool :=
  match it.pkg with
  | some p => p.cmssy
  | none => false

/-- `scanDirectory`'s loop body for one subdirectory: missing-config
handling (legacy-format error or warning, and in strict mode a
skip-with-warning), schema validation under the strict/lenient policy, then
`finishItem`.  `.error` models the loop throwing (aborting the scan),
`.ok (none, ws)` models `continue` (resource skipped), and
`.ok (some r, ws)` models the resource being pushed, with `ws` the warnings
printed along the way. -/
def scanItem (o : ScanOptions) (rtype : String) (it : ScanItem) :
    Except String (Option ScannedResource × List String) :=
  if o.loadConfig then
    match it.config with
    | none =>
        if hasLegacyCmssy it && o.strict then .error (legacyMessage rtype it.name)
        else
          let w1 := if hasLegacyCmssy it then [legacyMessage rtype it.name] else []
          if o.strict then
            .ok (none, w1 ++ ["Skipping " ++ it.name ++ " - no config.ts found"])
          else finishItem o rtype it none w1
    | some cfg =>
        if o.validateSchema && cfg.hasSchema && !it.schemaValid then
          if o.strict then .error ("Schema validation failed for " ++ it.name)
          else
            finishItem o rtype it (some cfg)
              (("Validation warnings in " ++ it.name ++ ":") :: it.schemaErrors)
        else finishItem o rtype it (some cfg) []
  else finishItem o rtype it none []

/-- `scanDirectory` over the listed subdirectories of one resource root:
processes items in order, accumulating resources and warnings; a strict-mode
throw aborts the whole fold. -/
def scanDirectory (o : ScanOptions) (rtype : String) (items : List ScanItem) :
    Except String (List ScannedResource × List String) :=
  items.foldlM
    (fun acc it => do
      let (r?, ws) ← scanItem o rtype it
      pure (acc.1 ++ r?.toList, acc.2 ++ ws))
    ([], [])

/-- `scanResources`: scan the blocks root, then the templates root. -/
def scanResources (o : ScanOptions) (blocks templates : List ScanItem) :
    Except String (List ScannedResource × List String) := do
  let (rs1, ws1) ← scanDirectory o "block" blocks
  let (rs2, ws2) ← scanDirectory o "template" templates
  pure (rs1 ++ rs2, ws1 ++ ws2)

/-- One metadata cache entry (`BlockMeta` in `blocks-meta-cache.ts`). -/
structure BlockMeta where
  type : String
  category : Option String
  tags : Option (List String)
  displayName : Option String
  description : Option String
  version : Option String
  updatedAt : String

/-- The persisted cache document (`BlocksMetaCache`): a versioned map keyed
by resource name. -/
structure BlocksMetaCache where
  version : Nat
  blocks : List (String × BlockMeta)

/-- The observable states of the on-disk cache file at
`.cmssy/blocks-meta.json`: absent, present but failing to parse, or present
and parsed. -/
inductive CacheFile where
  | missing
  | unparseable
  | parsed (cache : BlocksMetaCache)

/-- The empty cache `{version: 1, blocks: {}}`. -/
def emptyMetaCache : BlocksMetaCache :=
  { version := 1, blocks := [] }

/-- `loadMetaCache`: returns the parsed document when the file exists and
parses, and the empty cache when the file is missing or `readJsonSync`
throws.  It is a total function: no failure escapes to the caller. -/
def loadMetaCache : CacheFile → BlocksMetaCache
  | .missing => emptyMetaCache
  | .unparseable => emptyMetaCache
  | .parsed cache => cache

/-- The cache entry `updateBlockInCache` writes for a resource: every member
recomputed from the given config (absent members of an absent config become
`undefined`), plus the supplied version and the current timestamp. -/
def blockMetaOf (rtype : String) (config : Option BlockCfg) (version : Option String)
    (now : String) : BlockMeta :=
  { type := rtype
    category := config.bind (·.category)
    tags := config.bind (·.tags)
    displayName := config.bind (·.name)
    description := config.bind (·.description)
    version := version
    updatedAt := now }

/-- `updateBlockInCache`: a read-modify-write of the whole cache document —
load the full cache from disk, upsert the entry keyed by the resource name,
and return the whole document that `saveMetaCache` persists.  `now` stands
for `new Date().toISOString()`. -/
def updateBlockInCache (file : CacheFile) (name : String) (rtype : String)
    (config : Option BlockCfg) (version : Option String) (now : String) :
    BlocksMetaCache :=
  let cache := loadMetaCache file
  { cache with blocks := setKey cache.blocks name (blockMetaOf rtype config version now) }

/-- Outcome of the GraphQL `workspaceBlockByType` query behind the
published-version endpoint: either a thrown error, or a result whose
`workspaceBlockByType` member is `null` or a record with an optional
`version` member. -/
inductive BackendResult where
  | err (msg : String)
  | ok (workspaceBlockByType : Option (Option String))

/-- A response sent by the published-version handler: `json` models a 200
`res.json({version, published, error?})`; `notFound` the 404 for an unknown
resource; `badRequest` the 400 for a missing `workspaceId`. -/
inductive PvResponse where
  | json (version : Option String) (published : Bool) (error : Option String)
  | notFound
  | badRequest

/-- The `GET /api/blocks/:name/published-version` handler from
`src/commands/dev.ts`: 404 when the resource is unknown, 400 when
`workspaceId` is absent; then, inside the try/catch, a missing API token
short-circuits to `{version: null, published: false}`, a thrown backend
error is caught and answered with `{version: null, published: false,
error}`, and a successful query answers with
`version = workspaceBlockByType?.version || null` and
`published = version !== null`. -/
def publishedVersionHandler (resourceExists : Bool) (workspaceId : Option String)
    (apiToken : Option String) (backend : BackendResult) : PvResponse :=
  if !resourceExists then .notFound
  else
    match workspaceId with
    | none => .badRequest
    | some _ =>
        match apiToken with
        | none => .json none false none
        | some _ =>
            match backend with
            | .err m => .json none false (some m)
            | .ok rec? =>
                let publishedVersion : Option String :=
                  match rec? with
                  | none => none
                  | some none => none
                  | some (some s) => if s = "" then none else some s
                .json publishedVersion publishedVersion.isSome none

/-! ### Helper lemmas -/

theorem lookupKey_setKey_self {α : Type} (m : List (String × α)) (k : String) (v : α) :
    lookupKey (setKey m k v) k = some v := by
  induction m with
  | nil => simp [setKey, lookupKey]
  | cons hd tl ih =>
      obtain ⟨k', v'⟩ := hd
      by_cases h : k' = k
      · subst h
        simp [setKey, lookupKey]
      · simp [setKey, h, lookupKey, ih]

theorem lookupKey_setKey_ne {α : Type} (m : List (String × α)) (k k' : String) (v : α)
    (h : k' ≠ k) : lookupKey (setKey m k v) k' = lookupKey m k' := by
  induction m with
  | nil => simp [setKey, lookupKey, Ne.symm h]
  | cons hd tl ih =>
      obtain ⟨k₀, v₀⟩ := hd
      by_cases hk : k₀ = k
      · subst hk
        simp [setKey, lookupKey, Ne.symm h]
      · by_cases hk' : k₀ = k'
        · subst hk'
          simp [setKey, hk, lookupKey]
        · simp [setKey, hk, lookupKey, hk', ih]

theorem mem_objKeys_setKey {α : Type} (m : List (String × α)) (k k₀ : String) (v : α) :
    k ∈ objKeys (setKey m k₀ v) ↔ k = k₀ ∨ k ∈ objKeys m := by
  induction m with
  | nil => simp [setKey, objKeys]
  | cons hd tl ih =>
      obtain ⟨k', v'⟩ := hd
      by_cases h : k' = k₀
      · subst h
        simp [setKey, objKeys]
      · simp only [setKey, if_neg h, objKeys, List.map_cons, List.mem_cons]
        rw [show (objKeys (setKey tl k₀ v) : List String) = (setKey tl k₀ v).map Prod.fst from rfl] at ih
        rw [ih]
        tauto

theorem mergeStep1_of_absent (m : JObj) (key : String) (f : FieldConfig)
    (h : lookupKey m key = none ∨ lookupKey m key = some .null) :
    mergeStep1 m key f =
      match f.defaultValue with
      | some d => setKey m key d
      | none => if f.type = "repeater" then setKey m key (.arr []) else m := by
  rcases h with h | h <;> simp [mergeStep1, h]

theorem mergeStep1_of_present (m : JObj) (key : String) (f : FieldConfig) (v : JVal)
    (h : lookupKey m key = some v) (hv : v ≠ .null) :
    mergeStep1 m key f = m := by
  cases v with
  | null => exact absurd rfl hv
  | str s => simp [mergeStep1, h]
  | num n => simp [mergeStep1, h]
  | bool b => simp [mergeStep1, h]
  | arr xs => simp [mergeStep1, h]
  | obj fs => simp [mergeStep1, h]

theorem mergeStep1_cases (m : JObj) (key : String) (f : FieldConfig) :
    mergeStep1 m key f = m ∨ ∃ v, mergeStep1 m key f = setKey m key v := by
  cases hm : lookupKey m key with
  | none =>
      cases hd : f.defaultValue with
      | some d => exact Or.inr ⟨d, by simp [mergeStep1, hm, hd]⟩
      | none =>
          by_cases ht : f.type = "repeater"
          · exact Or.inr ⟨.arr [], by simp [mergeStep1, hm, hd, ht]⟩
          · exact Or.inl (by simp [mergeStep1, hm, hd, ht])
  | some v =>
      cases v with
      | null =>
          cases hd : f.defaultValue with
          | some d => exact Or.inr ⟨d, by simp [mergeStep1, hm, hd]⟩
          | none =>
              by_cases ht : f.type = "repeater"
              · exact Or.inr ⟨.arr [], by simp [mergeStep1, hm, hd, ht]⟩
              · exact Or.inl (by simp [mergeStep1, hm, hd, ht])
      | str s => exact Or.inl (by simp [mergeStep1, hm])
      | num n => exact Or.inl (by simp [mergeStep1, hm])
      | bool b => exact Or.inl (by simp [mergeStep1, hm])
      | arr xs => exact Or.inl (by simp [mergeStep1, hm])
      | obj fs => exact Or.inl (by simp [mergeStep1, hm])

theorem mergeStep2_cases (m1 : JObj) (key : String) (f : FieldConfig) :
    mergeStep2 m1 key f = m1 ∨ ∃ v, mergeStep2 m1 key f = setKey m1 key v := by
  by_cases ht : f.type = "repeater"
  · cases hsc : f.schema with
    | none => exact Or.inl (by simp [mergeStep2, ht, hsc])
    | some ns =>
        cases hm : lookupKey m1 key with
        | none => exact Or.inl (by simp [mergeStep2, ht, hsc, hm])
        | some v =>
            cases v with
            | arr items =>
                exact Or.inr ⟨.arr (items.map (mergeItem ns)), by simp [mergeStep2, ht, hsc, hm]⟩
            | null => exact Or.inl (by simp [mergeStep2, ht, hsc, hm])
            | str s => exact Or.inl (by simp [mergeStep2, ht, hsc, hm])
            | num n => exact Or.inl (by simp [mergeStep2, ht, hsc, hm])
            | bool b => exact Or.inl (by simp [mergeStep2, ht, hsc, hm])
            | obj fs => exact Or.inl (by simp [mergeStep2, ht, hsc, hm])
  · exact Or.inl (by simp [mergeStep2, ht])

theorem mergeField_frame (m : JObj) (key k : String) (f : FieldConfig) (h : k ≠ key) :
    lookupKey (mergeField m key f) k = lookupKey m k := by
  have h1 : lookupKey (mergeStep1 m key f) k = lookupKey m k := by
    rcases mergeStep1_cases m key f with hc | ⟨v, hc⟩
    · rw [hc]
    · rw [hc, lookupKey_setKey_ne _ _ _ _ h]
  rcases mergeStep2_cases (mergeStep1 m key f) key f with hc | ⟨v, hc⟩
  · rw [mergeField, hc, h1]
  · rw [mergeField, hc, lookupKey_setKey_ne _ _ _ _ h, h1]

theorem lookupKey_setKey_isSome {α : Type} (m : List (String × α)) (k k₀ : String) (v : α)
    (h : (lookupKey m k).isSome) : (lookupKey (setKey m k₀ v) k).isSome := by
  by_cases hk : k = k₀
  · subst hk
    rw [lookupKey_setKey_self]
    rfl
  · rw [lookupKey_setKey_ne _ _ _ _ hk]
    exact h

theorem mergeField_isSome_mono (m : JObj) (key k : String) (f : FieldConfig)
    (h : (lookupKey m k).isSome) : (lookupKey (mergeField m key f) k).isSome := by
  have h1 : (lookupKey (mergeStep1 m key f) k).isSome := by
    rcases mergeStep1_cases m key f with hc | ⟨v, hc⟩
    · rw [hc]; exact h
    · rw [hc]; exact lookupKey_setKey_isSome _ _ _ _ h
  rcases mergeStep2_cases (mergeStep1 m key f) key f with hc | ⟨v, hc⟩
  · rw [mergeField, hc]; exact h1
  · rw [mergeField, hc]; exact lookupKey_setKey_isSome _ _ _ _ h1

theorem mergeStep1_isSome_self (m : JObj) (key : String) (f : FieldConfig)
    (h : f.defaultValue ≠ none ∨ f.type = "repeater" ∨ (lookupKey m key).isSome) :
    (lookupKey (mergeStep1 m key f) key).isSome := by
  cases hm : lookupKey m key with
  | none =>
      cases hd : f.defaultValue with
      | some d => simp [mergeStep1, hm, hd, lookupKey_setKey_self]
      | none =>
          have ht : f.type = "repeater" := by
            rcases h with h | h | h
            · exact absurd hd h
            · exact h
            · rw [hm] at h; exact absurd h (by simp)
          simp [mergeStep1, hm, hd, ht, lookupKey_setKey_self]
  | some v =>
      cases v with
      | null =>
          cases hd : f.defaultValue with
          | some d => simp [mergeStep1, hm, hd, lookupKey_setKey_self]
          | none =>
              by_cases ht : f.type = "repeater"
              · simp [mergeStep1, hm, hd, ht, lookupKey_setKey_self]
              · simp [mergeStep1, hm, hd, ht]
      | str s => simp [mergeStep1, hm]
      | num n => simp [mergeStep1, hm]
      | bool b => simp [mergeStep1, hm]
      | arr xs => simp [mergeStep1, hm]
      | obj fs => simp [mergeStep1, hm]

theorem mergeField_isSome_self (m : JObj) (key : String) (f : FieldConfig)
    (h : f.defaultValue ≠ none ∨ f.type = "repeater" ∨ (lookupKey m key).isSome) :
    (lookupKey (mergeField m key f) key).isSome := by
  have h1 := mergeStep1_isSome_self m key f h
  rcases mergeStep2_cases (mergeStep1 m key f) key f with hc | ⟨v, hc⟩
  · rw [mergeField, hc]; exact h1
  · rw [mergeField, hc]; exact lookupKey_setKey_isSome _ _ _ _ h1

theorem merge_frame (S : Schema) (P : JObj) (k : String) (h : k ∉ objKeys S) :
    lookupKey (mergeDefaultsWithPreview S P) k = lookupKey P k := by
  induction S generalizing P with
  | nil => rfl
  | cons hd tl ih =>
      obtain ⟨k₀, f₀⟩ := hd
      simp only [objKeys, List.map_cons, List.mem_cons, not_or] at h
      obtain ⟨hk, hrest⟩ := h
      have step : mergeDefaultsWithPreview ((k₀, f₀) :: tl) P
          = mergeDefaultsWithPreview tl (mergeField P k₀ f₀) := rfl
      rw [step, ih _ hrest, mergeField_frame _ _ _ _ hk]

theorem merge_isSome_mono (S : Schema) (P : JObj) (k : String)
    (h : (lookupKey P k).isSome) : (lookupKey (mergeDefaultsWithPreview S P) k).isSome := by
  induction S generalizing P with
  | nil => exact h
  | cons hd tl ih =>
      obtain ⟨k₀, f₀⟩ := hd
      exact ih _ (mergeField_isSome_mono _ _ _ _ h)

theorem merge_isSome_of_mem (S : Schema) (P : JObj) (k : String) (f : FieldConfig)
    (hmem : (k, f) ∈ S)
    (h : f.defaultValue ≠ none ∨ f.type = "repeater" ∨ (lookupKey P k).isSome) :
    (lookupKey (mergeDefaultsWithPreview S P) k).isSome := by
  induction S generalizing P with
  | nil => cases hmem
  | cons hd tl ih =>
      obtain ⟨k₀, f₀⟩ := hd
      rcases List.mem_cons.mp hmem with heq | htl
      · obtain ⟨hk, hf⟩ := Prod.mk.injEq .. ▸ heq
        subst hk; subst hf
        exact merge_isSome_mono tl _ k (mergeField_isSome_self _ _ _ h)
      · refine ih _ htl ?_
        rcases h with h | h | h
        · exact Or.inl h
        · exact Or.inr (Or.inl h)
        · exact Or.inr (Or.inr (mergeField_isSome_mono _ _ _ _ h))

theorem mergeStep2_lookup_self (m1 : JObj) (key : String) (f : FieldConfig) :
    lookupKey (mergeStep2 m1 key f) key = (lookupKey m1 key).map (repeaterFill f) := by
  by_cases ht : f.type = "repeater"
  · cases hsc : f.schema with
    | none =>
        cases hm : lookupKey m1 key with
        | none => simp [mergeStep2, ht, hsc, hm, repeaterFill]
        | some v => simp [mergeStep2, ht, hsc, hm, repeaterFill]
    | some ns =>
        cases hm : lookupKey m1 key with
        | none => simp [mergeStep2, ht, hsc, hm, repeaterFill]
        | some v =>
            cases v with
            | arr items =>
                simp [mergeStep2, ht, hsc, hm, repeaterFill, lookupKey_setKey_self]
            | null => simp [mergeStep2, ht, hsc, hm, repeaterFill]
            | str s => simp [mergeStep2, ht, hsc, hm, repeaterFill]
            | num n => simp [mergeStep2, ht, hsc, hm, repeaterFill]
            | bool b => simp [mergeStep2, ht, hsc, hm, repeaterFill]
            | obj fs => simp [mergeStep2, ht, hsc, hm, repeaterFill]
  · cases hm : lookupKey m1 key with
    | none => simp [mergeStep2, ht, hm]
    | some v => simp [mergeStep2, ht, hm, repeaterFill]

theorem mergeField_lookup_of_present (m : JObj) (key : String) (f : FieldConfig) (v : JVal)
    (hv : lookupKey m key = some v) (hnn : v ≠ .null) :
    lookupKey (mergeField m key f) key = some (repeaterFill f v) := by
  rw [mergeField, mergeStep2_lookup_self, mergeStep1_of_present _ _ _ _ hv hnn, hv]
  rfl

theorem mergeField_lookup_of_default (m : JObj) (key : String) (f : FieldConfig) (d : JVal)
    (hd : f.defaultValue = some d)
    (habs : lookupKey m key = none ∨ lookupKey m key = some .null) :
    lookupKey (mergeField m key f) key = some (repeaterFill f d) := by
  rw [mergeField, mergeStep2_lookup_self, mergeStep1_of_absent _ _ _ habs, hd,
    lookupKey_setKey_self]
  rfl

theorem merge_lookup_of_present (S : Schema) (P : JObj) (k : String) (f : FieldConfig)
    (v : JVal) (hnd : (objKeys S).Nodup) (hmem : (k, f) ∈ S)
    (hv : lookupKey P k = some v) (hnn : v ≠ .null) :
    lookupKey (mergeDefaultsWithPreview S P) k = some (repeaterFill f v) := by
  induction S generalizing P with
  | nil => cases hmem
  | cons hd tl ih =>
      obtain ⟨k₀, f₀⟩ := hd
      simp only [objKeys, List.map_cons, List.nodup_cons] at hnd
      obtain ⟨hknotin, hndtl⟩ := hnd
      have step : mergeDefaultsWithPreview ((k₀, f₀) :: tl) P
          = mergeDefaultsWithPreview tl (mergeField P k₀ f₀) := rfl
      rcases List.mem_cons.mp hmem with heq | htl
      · obtain ⟨hk, hf⟩ := Prod.mk.injEq .. ▸ heq
        subst hk; subst hf
        rw [step, merge_frame tl _ k hknotin, mergeField_lookup_of_present _ _ _ _ hv hnn]
      · have hk : k ≠ k₀ := by
          intro hh
          subst hh
          exact hknotin (List.mem_map.mpr ⟨(k, f), htl, rfl⟩)
        rw [step]
        exact ih (mergeField P k₀ f₀) hndtl htl
          (by rw [mergeField_frame _ _ _ _ hk]; exact hv)

theorem merge_lookup_of_default (S : Schema) (P : JObj) (k : String) (f : FieldConfig)
    (d : JVal) (hnd : (objKeys S).Nodup) (hmem : (k, f) ∈ S)
    (hd : f.defaultValue = some d)
    (habs : lookupKey P k = none ∨ lookupKey P k = some .null) :
    lookupKey (mergeDefaultsWithPreview S P) k = some (repeaterFill f d) := by
  induction S generalizing P with
  | nil => cases hmem
  | cons hd0 tl ih =>
      obtain ⟨k₀, f₀⟩ := hd0
      simp only [objKeys, List.map_cons, List.nodup_cons] at hnd
      obtain ⟨hknotin, hndtl⟩ := hnd
      have step : mergeDefaultsWithPreview ((k₀, f₀) :: tl) P
          = mergeDefaultsWithPreview tl (mergeField P k₀ f₀) := rfl
      rcases List.mem_cons.mp hmem with heq | htl
      · obtain ⟨hk, hf⟩ := Prod.mk.injEq .. ▸ heq
        subst hk; subst hf
        rw [step, merge_frame tl _ k hknotin, mergeField_lookup_of_default _ _ _ _ hd habs]
      · have hk : k ≠ k₀ := by
          intro hh
          subst hh
          exact hknotin (List.mem_map.mpr ⟨(k, f), htl, rfl⟩)
        rw [step]
        exact ih (mergeField P k₀ f₀) hndtl htl
          (by rw [mergeField_frame _ _ _ _ hk]; exact habs)

theorem itemFillStep_preserves (acc : JObj) (p : String × FieldConfig) (nk : String)
    (v : JVal) (h : lookupKey acc nk = some v) :
    lookupKey (itemFillStep acc p) nk = some v := by
  cases hm : lookupKey acc p.1 with
  | some w =>
      cases hd : (p.2).defaultValue with
      | some d => simp [itemFillStep, hm, hd, h]
      | none => simp [itemFillStep, hm, hd, h]
  | none =>
      have hk : nk ≠ p.1 := by
        intro hh
        rw [hh, hm] at h
        cases h
      cases hd : (p.2).defaultValue with
      | some d => simp [itemFillStep, hm, hd, lookupKey_setKey_ne _ _ _ _ hk, h]
      | none => simp [itemFillStep, hm, hd, h]

theorem itemFill_fold_preserves (ns : Schema) (acc : JObj) (nk : String) (v : JVal)
    (h : lookupKey acc nk = some v) :
    lookupKey (ns.foldl itemFillStep acc) nk = some v := by
  induction ns generalizing acc with
  | nil => exact h
  | cons hd tl ih => exact ih _ (itemFillStep_preserves _ _ _ _ h)

theorem mergeItemObj_preserves (ns : Schema) (item : JVal) (nk : String) (v : JVal)
    (h : lookupKey (spreadVal item) nk = some v) :
    lookupKey (mergeItemObj ns item) nk = some v :=
  itemFill_fold_preserves ns _ nk v h

theorem itemFillStep_frame (acc : JObj) (p : String × FieldConfig) (nk : String)
    (hk : nk ≠ p.1) : lookupKey (itemFillStep acc p) nk = lookupKey acc nk := by
  cases hm : lookupKey acc p.1 with
  | some w =>
      cases hd : (p.2).defaultValue with
      | some d => simp [itemFillStep, hm, hd]
      | none => simp [itemFillStep, hm, hd]
  | none =>
      cases hd : (p.2).defaultValue with
      | some d => simp [itemFillStep, hm, hd, lookupKey_setKey_ne _ _ _ _ hk]
      | none => simp [itemFillStep, hm, hd]

theorem itemFill_fold_fills (ns : Schema) (acc : JObj) (nk : String) (nf : FieldConfig)
    (d : JVal) (hnd : (objKeys ns).Nodup) (hmem : (nk, nf) ∈ ns)
    (habs : lookupKey acc nk = none) (hd : nf.defaultValue = some d) :
    lookupKey (ns.foldl itemFillStep acc) nk = some d := by
  induction ns generalizing acc with
  | nil => cases hmem
  | cons hd0 tl ih =>
      obtain ⟨k₀, f₀⟩ := hd0
      simp only [objKeys, List.map_cons, List.nodup_cons] at hnd
      obtain ⟨hknotin, hndtl⟩ := hnd
      rcases List.mem_cons.mp hmem with heq | htl
      · obtain ⟨hk, hf⟩ := Prod.mk.injEq .. ▸ heq
        subst hk; subst hf
        have hstep : lookupKey (itemFillStep acc (nk, nf)) nk = some d := by
          simp [itemFillStep, habs, hd, lookupKey_setKey_self]
        exact itemFill_fold_preserves tl _ nk d hstep
      · have hk : nk ≠ k₀ := by
          intro hh
          subst hh
          exact hknotin (List.mem_map.mpr ⟨(nk, nf), htl, rfl⟩)
        exact ih (itemFillStep acc (k₀, f₀)) hndtl htl
          (by rw [itemFillStep_frame _ _ _ hk]; exact habs)

theorem mergeItemObj_fills (ns : Schema) (item : JVal) (nk : String) (nf : FieldConfig)
    (d : JVal) (hnd : (objKeys ns).Nodup) (hmem : (nk, nf) ∈ ns)
    (habs : lookupKey (spreadVal item) nk = none) (hd : nf.defaultValue = some d) :
    lookupKey (mergeItemObj ns item) nk = some d :=
  itemFill_fold_fills ns _ nk nf d hnd hmem habs hd

/-! ### Claim theorems -/

/-- C1 counterexample: for the schema `{a: {type: "singleLine"}}` (a declared
key with no `defaultValue` and a non-repeater type) and empty preview
content, the merged result has no defined value at the declared key `a` —
refuting the claim that the merge result has a defined value for *every* key
declared in the schema. -/
theorem merge_completeness_counterexample :
    ("a", FieldConfig.mk "singleLine" none none)
        ∈ ([("a", FieldConfig.mk "singleLine" none none)] : Schema)
    ∧ lookupKey (mergeDefaultsWithPreview
        [("a", FieldConfig.mk "singleLine" none none)] []) "a" = none :=
  ⟨List.mem_singleton.mpr rfl, rfl⟩

/-- C1 (amended): the merge result has a defined value for every schema key
that has a `defaultValue`, or has type `repeater`, or is present in the
preview content; and every key of the preview content that is not declared
in the schema is preserved unchanged. -/
theorem merge_completeness_amended (S : Schema) (P : JObj) :
    (∀ k f, (k, f) ∈ S →
        (f.defaultValue ≠ none ∨ f.type = "repeater" ∨ (lookupKey P k).isSome) →
        (lookupKey (mergeDefaultsWithPreview S P) k).isSome)
    ∧ ∀ k, k ∉ objKeys S →
        lookupKey (mergeDefaultsWithPreview S P) k = lookupKey P k :=
  ⟨fun k f hmem h => merge_isSome_of_mem S P k f hmem h,
   fun k h => merge_frame S P k h⟩

/-- C1 witness: a concrete instance of the amended completeness claim. -/
theorem merge_completeness_amended_witness :
    (lookupKey (mergeDefaultsWithPreview
        [("badge", FieldConfig.mk "singleLine" (some (JVal.str "About Us")) none)]
        [("x", JVal.num 1)]) "badge").isSome
    ∧ lookupKey (mergeDefaultsWithPreview
        [("badge", FieldConfig.mk "singleLine" (some (JVal.str "About Us")) none)]
        [("x", JVal.num 1)]) "x" = lookupKey [("x", JVal.num 1)] "x" :=
  ⟨(merge_completeness_amended _ _).1 "badge"
      (FieldConfig.mk "singleLine" (some (JVal.str "About Us")) none)
      (List.mem_singleton.mpr rfl)
      (Or.inl (fun h => Option.noConfusion h)),
   (merge_completeness_amended _ _).2 "x" (by decide)⟩

/-- C6 counterexample: for a schema key with `defaultValue` `"D"` whose
preview value is present but explicitly `null`, the merged result is the
schema default, not the preview value — refuting the claim for keys present
in `P` with a `null` value. -/
theorem preview_precedence_counterexample :
    lookupKey ([("a", JVal.null)] : JObj) "a" = some JVal.null
    ∧ lookupKey (mergeDefaultsWithPreview
        [("a", FieldConfig.mk "singleLine" (some (JVal.str "D")) none)]
        [("a", JVal.null)]) "a" = some (JVal.str "D")
    ∧ JVal.str "D" ≠ JVal.null :=
  ⟨rfl, rfl, fun h => JVal.noConfusion h⟩

/-- C6 (amended): for every schema key with a `defaultValue` that is present
in the preview content with a non-`null` value `v`, the merged result at
that key is `v` itself — except that a repeater field with a nested schema
and an array value yields `v`'s items with their nested defaults filled
(`repeaterFill`); it is never the top-level schema default that is
substituted. -/
theorem preview_precedence_amended (S : Schema) (P : JObj) (k : String)
    (f : FieldConfig) (v : JVal) (hnd : (objKeys S).Nodup) (hmem : (k, f) ∈ S)
    (hdef : f.defaultValue ≠ none) (hv : lookupKey P k = some v)
    (hnn : v ≠ .null) :
    lookupKey (mergeDefaultsWithPreview S P) k = some (repeaterFill f v) :=
  merge_lookup_of_present S P k f v hnd hmem hv hnn

/-- C6 witness: a concrete instance of the amended precedence claim, the
test suite's own example. -/
theorem preview_precedence_amended_witness :
    lookupKey (mergeDefaultsWithPreview
      [("badge", FieldConfig.mk "singleLine" (some (JVal.str "About Us")) none),
       ("heading", FieldConfig.mk "singleLine" (some (JVal.str "Default Heading")) none)]
      [("badge", JVal.str "Custom Badge")]) "badge"
    = some (repeaterFill (FieldConfig.mk "singleLine" (some (JVal.str "About Us")) none)
        (JVal.str "Custom Badge")) :=
  preview_precedence_amended _ _ _ _ _ (by decide) (List.mem_cons_self _ _)
    (fun h => Option.noConfusion h) rfl (fun h => JVal.noConfusion h)

/-- C3: the null/undefined asymmetry of the merge.  (a) At top level, a key
whose preview value is `undefined` *or* explicitly `null` is replaced by the
field's `defaultValue` (the two cases produce the same result); (b) inside a
repeater item, a nested key explicitly set to `null` is preserved as `null`;
(c) inside a repeater item, a nested key that is strictly `undefined` is
replaced by the nested field's `defaultValue`. -/
theorem null_undefined_asymmetry :
    (∀ (S : Schema) (P : JObj) (k : String) (f : FieldConfig) (d : JVal),
        (objKeys S).Nodup → (k, f) ∈ S → f.defaultValue = some d →
        (lookupKey P k = none ∨ lookupKey P k = some .null) →
        lookupKey (mergeDefaultsWithPreview S P) k = some (repeaterFill f d))
    ∧ (∀ (ns : Schema) (item : JVal) (nk : String),
        lookupKey (spreadVal item) nk = some .null →
        lookupKey (mergeItemObj ns item) nk = some JVal.null)
    ∧ (∀ (ns : Schema) (item : JVal) (nk : String) (nf : FieldConfig) (d : JVal),
        (objKeys ns).Nodup → (nk, nf) ∈ ns → nf.defaultValue = some d →
        lookupKey (spreadVal item) nk = none →
        lookupKey (mergeItemObj ns item) nk = some d) :=
  ⟨fun S P k f d hnd hmem hd habs => merge_lookup_of_default S P k f d hnd hmem hd habs,
   fun ns item nk h => mergeItemObj_preserves ns item nk _ h,
   fun ns item nk nf d hnd hmem hd habs => mergeItemObj_fills ns item nk nf d hnd hmem habs hd⟩

/-- C3 witness: concrete instances of all three parts of the asymmetry
claim: a top-level `null` is defaulted, a nested `null` is preserved, a
nested `undefined` is defaulted. -/
theorem null_undefined_asymmetry_witness :
    lookupKey (mergeDefaultsWithPreview
        [("badge", FieldConfig.mk "singleLine" (some (JVal.str "About Us")) none)]
        [("badge", JVal.null)]) "badge"
      = some (repeaterFill (FieldConfig.mk "singleLine" (some (JVal.str "About Us")) none)
          (JVal.str "About Us"))
    ∧ lookupKey (mergeItemObj
        [("title", FieldConfig.mk "singleLine" (some (JVal.str "Title")) none)]
        (JVal.obj [("title", JVal.null)])) "title" = some JVal.null
    ∧ lookupKey (mergeItemObj
        [("title", FieldConfig.mk "singleLine" (some (JVal.str "Title")) none)]
        (JVal.obj [])) "title" = some (JVal.str "Title") :=
  ⟨null_undefined_asymmetry.1 _ _ "badge" _ _ (by decide)
      (List.mem_singleton.mpr rfl) rfl (Or.inr rfl),
   null_undefined_asymmetry.2.1 _ (JVal.obj [("title", JVal.null)]) "title" rfl,
   null_undefined_asymmetry.2.2 _ (JVal.obj []) "title" _ _ (by decide)
      (List.mem_singleton.mpr rfl) rfl rfl⟩

/-- C10 counterexample: for the schema `{img: {type: "media"}}` and preview
content `{img: "u"}`, the dev server's merge leaves the string value
unchanged while the test suite's reference simulation coerces it into
`{url: "u", alt: ""}` — the two functions differ. -/
theorem merge_test_equiv_counterexample :
    mergeDefaultsWithPreview [("img", FieldConfig.mk "media" none none)]
        [("img", JVal.str "u")] = [("img", JVal.str "u")]
    ∧ mergeDefaultsWithPreviewTest [("img", FieldConfig.mk "media" none none)]
        [("img", JVal.str "u")]
      = [("img", JVal.obj [("url", JVal.str "u"), ("alt", JVal.str "")])]
    ∧ mergeDefaultsWithPreview [("img", FieldConfig.mk "media" none none)]
        [("img", JVal.str "u")]
      ≠ mergeDefaultsWithPreviewTest [("img", FieldConfig.mk "media" none none)]
        [("img", JVal.str "u")] := by
  refine ⟨rfl, rfl, ?_⟩
  intro h
  rw [show mergeDefaultsWithPreview [("img", FieldConfig.mk "media" none none)]
        [("img", JVal.str "u")] = [("img", JVal.str "u")] from rfl,
      show mergeDefaultsWithPreviewTest [("img", FieldConfig.mk "media" none none)]
        [("img", JVal.str "u")]
        = [("img", JVal.obj [("url", JVal.str "u"), ("alt", JVal.str "")])] from rfl] at h
  injection h with h1 h2
  injection h1 with ha hb
  exact JVal.noConfusion hb

/-- C10 (amended): the dev server's merge and the test suite's reference
simulation compute equal results for every schema that declares no
media-typed field (for a media-typed field whose value is a string they
differ: the test reference coerces the string into `{url, alt: ""}`, the dev
server does not). -/
theorem merge_test_equiv_amended (S : Schema) (P : JObj)
    (h : ∀ p ∈ S, (p.2).type ≠ "media") :
    mergeDefaultsWithPreviewTest S P = mergeDefaultsWithPreview S P := by
  induction S generalizing P with
  | nil => rfl
  | cons hd tl ih =>
      obtain ⟨k₀, f₀⟩ := hd
      have hmedia : f₀.type ≠ "media" := h (k₀, f₀) (List.mem_cons_self _ _)
      have hstep : mergeFieldTest P k₀ f₀ = mergeField P k₀ f₀ := by
        simp [mergeFieldTest, hmedia]
      have e1 : mergeDefaultsWithPreviewTest ((k₀, f₀) :: tl) P
          = mergeDefaultsWithPreviewTest tl (mergeFieldTest P k₀ f₀) := rfl
      have e2 : mergeDefaultsWithPreview ((k₀, f₀) :: tl) P
          = mergeDefaultsWithPreview tl (mergeField P k₀ f₀) := rfl
      rw [e1, e2, hstep,
        ih (mergeField P k₀ f₀) (fun p hp => h p (List.mem_cons_of_mem _ hp))]

/-- C10 witness: a concrete media-free schema on which the two merge
implementations agree. -/
theorem merge_test_equiv_amended_witness :
    mergeDefaultsWithPreviewTest
        [("badge", FieldConfig.mk "singleLine" (some (JVal.str "About Us")) none)]
        [("heading", JVal.str "H")]
      = mergeDefaultsWithPreview
        [("badge", FieldConfig.mk "singleLine" (some (JVal.str "About Us")) none)]
        [("heading", JVal.str "H")] :=
  merge_test_equiv_amended _ _
    (by
      intro p hp
      rw [List.mem_singleton] at hp
      subst hp
      decide)

/-- C2: save suppression on empty baseline — whenever the baseline snapshot
`configDataRef.current` is the empty object, the debounced-save effect
issues no preview write, for every loading flag, dirty flag, selected
resource and working edit state. -/
theorem save_suppression_on_empty_baseline (s : SaveEffectState)
    (h : s.configDataRef = []) : debouncedSave s = none := by
  cases hb : s.selectedBlock with
  | none => simp [debouncedSave, hb]
  | some name => simp [debouncedSave, hb, h, objKeys]

/-- C2 witness: a dirty, loaded, selected state with an empty baseline and a
non-empty working edit issues no write. -/
theorem save_suppression_on_empty_baseline_witness :
    debouncedSave
      { configLoading := false, isDirty := true, selectedBlock := some "hero",
        configDataRef := [], previewData := [("badge", JVal.str "x")] } = none :=
  save_suppression_on_empty_baseline _ rfl

theorem mem_objKeys_mergeForSave (b w : JObj) (k : String) :
    k ∈ objKeys (mergeForSave b w) ↔ k ∈ objKeys b ∨ k ∈ objKeys w := by
  induction w generalizing b with
  | nil => simp [mergeForSave, objKeys]
  | cons hd tl ih =>
      obtain ⟨k₀, v₀⟩ := hd
      have step : mergeForSave b ((k₀, v₀) :: tl) = mergeForSave (setKey b k₀ v₀) tl := rfl
      rw [step, ih (setKey b k₀ v₀)]
      rw [show objKeys (setKey b k₀ v₀) = (setKey b k₀ v₀).map Prod.fst from rfl]
      rw [show (k ∈ (setKey b k₀ v₀).map Prod.fst) ↔ (k ∈ objKeys (setKey b k₀ v₀)) from Iff.rfl]
      rw [mem_objKeys_setKey]
      simp only [objKeys, List.map_cons, List.mem_cons]
      tauto

/-- C5: save reconciliation never truncates — for every non-empty baseline
and every working object whose key set is contained in the baseline's, the
reconciled payload `{...baseline, ...working}` has exactly the baseline's
key set. -/
theorem save_reconciliation_never_truncates (b w : JObj) (hb : b ≠ [])
    (hsub : ∀ k, k ∈ objKeys w → k ∈ objKeys b) :
    ∀ k, k ∈ objKeys (mergeForSave b w) ↔ k ∈ objKeys b := by
  intro k
  rw [mem_objKeys_mergeForSave]
  constructor
  · rintro (h | h)
    · exact h
    · exact hsub k h
  · exact Or.inl

/-- C5 witness: editing one field of a two-field baseline keeps both keys
(checked at the keys `badge` and `heading`). -/
theorem save_reconciliation_never_truncates_witness :
    ("badge" ∈ objKeys (mergeForSave
        [("badge", JVal.str "About Us"), ("heading", JVal.str "H")]
        [("badge", JVal.str "New Badge")])
      ↔ "badge" ∈ objKeys [("badge", JVal.str "About Us"), ("heading", JVal.str "H")])
    ∧ ("heading" ∈ objKeys (mergeForSave
        [("badge", JVal.str "About Us"), ("heading", JVal.str "H")]
        [("badge", JVal.str "New Badge")])
      ↔ "heading" ∈ objKeys [("badge", JVal.str "About Us"), ("heading", JVal.str "H")]) :=
  ⟨save_reconciliation_never_truncates _ _ (by simp)
      (by
        intro k hk
        simp [objKeys] at hk ⊢
        exact Or.inl hk) "badge",
   save_reconciliation_never_truncates _ _ (by simp)
      (by
        intro k hk
        simp [objKeys] at hk ⊢
        exact Or.inl hk) "heading"⟩

theorem scanResources_single (o : ScanOptions) (it : ScanItem) :
    scanResources o [it] [] =
      match scanItem o "block" it with
      | .error e => .error e
      | .ok (r?, ws) => .ok (r?.toList, ws) := by
  cases hs : scanItem o "block" it with
  | error e =>
      simp [scanResources, scanDirectory, hs, List.foldlM, bind, Except.bind]
  | ok pr =>
      obtain ⟨r?, ws⟩ := pr
      simp [scanResources, scanDirectory, hs, List.foldlM, bind, Except.bind, pure, Except.pure]

theorem finishItem_lenient (o : ScanOptions) (t : String) (it : ScanItem)
    (bc : Option BlockCfg) (ws : List String) (h : o.strict = false) :
    ∃ r, finishItem o t it bc ws = .ok (some r, ws) ∧ r.name = it.name := by
  simp only [finishItem, h, Bool.and_false, if_false]
  exact ⟨_, rfl, rfl⟩

theorem scanItem_lenient (o : ScanOptions) (t : String) (it : ScanItem)
    (h : o.strict = false) :
    ∃ r ws, scanItem o t it = .ok (some r, ws) ∧ r.name = it.name := by
  by_cases hl : o.loadConfig
  · cases hc : it.config with
    | none =>
        obtain ⟨r, hr, hn⟩ := finishItem_lenient o t it none
          (if hasLegacyCmssy it then [legacyMessage t it.name] else []) h
        exact ⟨r, (if hasLegacyCmssy it then [legacyMessage t it.name] else []),
          by simp [scanItem, hl, hc, h, hr], hn⟩
    | some cfg =>
        by_cases hv : (o.validateSchema && cfg.hasSchema && !it.schemaValid) = true
        · obtain ⟨r, hr, hn⟩ := finishItem_lenient o t it (some cfg)
            (("Validation warnings in " ++ it.name ++ ":") :: it.schemaErrors) h
          exact ⟨r, ("Validation warnings in " ++ it.name ++ ":") :: it.schemaErrors,
            by simp [scanItem, hl, hc, h, hv, hr], hn⟩
        · obtain ⟨r, hr, hn⟩ := finishItem_lenient o t it (some cfg) [] h
          exact ⟨r, [], by simp [scanItem, hl, hc, h, hv, hr], hn⟩
  · obtain ⟨r, hr, hn⟩ := finishItem_lenient o t it none [] h
    exact ⟨r, [], by simp [scanItem, hl, hr], hn⟩

/-- C4 counterexample: a strict scan of a resource with no `config.ts` (and
no legacy package metadata) does *not* raise an error aborting the scan — it
succeeds, skipping the resource with a warning.  This refutes the claim that
strict mode aborts on every resource whose configuration is missing. -/
theorem scanner_strict_counterexample :
    scanResources
      { strict := true, loadConfig := true, validateSchema := true,
        loadPreview := false, requirePackageJson := false }
      [{ name := "hero", config := none,
         pkg := some { name := some "blocks.hero", version := some "1.0.0",
                       description := none, cmssy := false },
         schemaValid := true, schemaErrors := [], previewData := [] }] []
    = Except.ok ([], ["Skipping hero - no config.ts found"]) := rfl

/-- C4 (amended): with `strict = true`, a resource whose schema fails
validation aborts the whole scan with an error, while a resource whose
configuration is missing (without legacy package metadata) is skipped with a
warning — excluded from the list, scan not aborted; with `strict = false`,
the resource is always included in the returned list (possibly without a
schema). -/
theorem scanner_strict_lenient_amended (o : ScanOptions) (it : ScanItem) :
    (o.strict = true → o.loadConfig = true → o.validateSchema = true →
      ∀ cfg, it.config = some cfg → cfg.hasSchema = true → it.schemaValid = false →
      scanResources o [it] [] = .error ("Schema validation failed for " ++ it.name))
    ∧ (o.strict = true → o.loadConfig = true → it.config = none →
      hasLegacyCmssy it = false →
      scanResources o [it] []
        = .ok ([], ["Skipping " ++ it.name ++ " - no config.ts found"]))
    ∧ (o.strict = false →
      ∃ r ws, scanResources o [it] [] = .ok ([r], ws) ∧ r.name = it.name) := by
  refine ⟨?_, ?_, ?_⟩
  · intro hs hl hv cfg hc hh hsv
    rw [scanResources_single]
    simp [scanItem, hl, hc, hv, hh, hsv, hs]
  · intro hs hl hc hleg
    rw [scanResources_single]
    simp [scanItem, hl, hc, hleg, hs]
  · intro hs
    obtain ⟨r, ws, hr, hn⟩ := scanItem_lenient o "block" it hs
    exact ⟨r, ws, by rw [scanResources_single]; simp [hr], hn⟩

/-- C4 witness: concrete instances of all three parts of the amended
scanner claim — a strict scan aborting on an invalid schema, a strict scan
skipping a config-less resource with a warning, and a lenient scan including
a config-less resource. -/
theorem scanner_strict_lenient_amended_witness :
    scanResources ⟨true, true, true, false, false⟩
      [⟨"hero", some ⟨none, none, none, none, true⟩, none, false, ["bad field"], []⟩] []
      = .error ("Schema validation failed for " ++ "hero")
    ∧ scanResources ⟨true, true, true, false, false⟩
      [⟨"card", none, none, true, [], []⟩] []
      = .ok ([], ["Skipping " ++ "card" ++ " - no config.ts found"])
    ∧ (∃ r ws, scanResources ⟨false, true, true, false, false⟩
        [⟨"hero", none, none, true, [], []⟩] [] = .ok ([r], ws) ∧ r.name = "hero") :=
  ⟨(scanner_strict_lenient_amended _ _).1 rfl rfl rfl _ rfl rfl rfl,
   (scanner_strict_lenient_amended _ _).2.1 rfl rfl rfl rfl,
   (scanner_strict_lenient_amended _ _).2.2 rfl⟩

/-- C7: metadata cache load never fails — `loadMetaCache` returns the empty
cache `{version: 1, blocks: {}}` whenever the cache file is missing or its
contents fail to parse.  (`loadMetaCache` being a total function into
`BlocksMetaCache`, no error reaches the caller in any case.) -/
theorem loadMetaCache_graceful (f : CacheFile)
    (h : f = .missing ∨ f = .unparseable) :
    loadMetaCache f = { version := 1, blocks := [] } := by
  rcases h with h | h <;> subst h <;> rfl

/-- C7 witness: both degraded cases at concrete inputs. -/
theorem loadMetaCache_graceful_witness :
    loadMetaCache .missing = { version := 1, blocks := [] }
    ∧ loadMetaCache .unparseable = { version := 1, blocks := [] } :=
  ⟨loadMetaCache_graceful .missing (Or.inl rfl),
   loadMetaCache_graceful .unparseable (Or.inr rfl)⟩

/-- C8: cache update is a framing read-modify-write — `updateBlockInCache`
loads the full document, replaces exactly the entry keyed by the given
resource name, and the persisted document agrees with the loaded one on
every other name (and on the document version). -/
theorem updateBlockInCache_frame (file : CacheFile) (name rtype : String)
    (config : Option BlockCfg) (version : Option String) (now : String) :
    (∀ other, other ≠ name →
        lookupKey (updateBlockInCache file name rtype config version now).blocks other
          = lookupKey (loadMetaCache file).blocks other)
    ∧ lookupKey (updateBlockInCache file name rtype config version now).blocks name
        = some (blockMetaOf rtype config version now)
    ∧ (updateBlockInCache file name rtype config version now).version
        = (loadMetaCache file).version :=
  ⟨fun other hne => lookupKey_setKey_ne _ _ _ _ hne,
   lookupKey_setKey_self _ _ _,
   rfl⟩

/-- C8 witness: updating `hero` in a cache holding `hero` and `card` leaves
`card` untouched and rewrites `hero`. -/
theorem updateBlockInCache_frame_witness :
    lookupKey (updateBlockInCache
        (.parsed { version := 1, blocks :=
          [("hero", ⟨"block", some "heroes", none, some "Hero", none, some "1.0.0", "t0"⟩),
           ("card", ⟨"block", some "cards", none, some "Card", none, some "2.0.0", "t0"⟩)] })
        "hero" "block" none (some "1.1.0") "t1").blocks "card"
      = some ⟨"block", some "cards", none, some "Card", none, some "2.0.0", "t0"⟩
    ∧ lookupKey (updateBlockInCache
        (.parsed { version := 1, blocks :=
          [("hero", ⟨"block", some "heroes", none, some "Hero", none, some "1.0.0", "t0"⟩),
           ("card", ⟨"block", some "cards", none, some "Card", none, some "2.0.0", "t0"⟩)] })
        "hero" "block" none (some "1.1.0") "t1").blocks "hero"
      = some (blockMetaOf "block" none (some "1.1.0") "t1") :=
  ⟨((updateBlockInCache_frame _ _ _ _ _ _).1 "card" (by decide)).trans rfl,
   (updateBlockInCache_frame _ _ _ _ _ _).2.1⟩

/-- C9: published-version lookup degrades instead of failing — for a known
resource with a `workspaceId` supplied, a missing API token or a thrown
backend error yields a successful JSON response with `version: null` and
`published: false`, never an error response. -/
theorem published_version_degrades (workspaceId apiToken : Option String)
    (backend : BackendResult) (w : String) (hw : workspaceId = some w)
    (h : apiToken = none ∨ ∃ m, backend = .err m) :
    ∃ e, publishedVersionHandler true workspaceId apiToken backend
      = .json none false e := by
  subst hw
  rcases h with h | ⟨m, h⟩
  · subst h
    exact ⟨none, rfl⟩
  · subst h
    cases apiToken with
    | none => exact ⟨none, rfl⟩
    | some t => exact ⟨some m, rfl⟩

/-- C9 witness: both degraded cases at concrete inputs. -/
theorem published_version_degrades_witness :
    (∃ e, publishedVersionHandler true (some "ws1") none (.ok none)
      = .json none false e)
    ∧ ∃ e, publishedVersionHandler true (some "ws1") (some "token") (.err "boom")
      = .json none false e :=
  ⟨published_version_degrades _ _ _ "ws1" rfl (Or.inl rfl),
   published_version_degrades _ _ _ "ws1" rfl (Or.inr ⟨"boom", rfl⟩)⟩
